import Mathlib

/-!
Verification of the Math Utility Module (`src/algebra.cc`).

The module exposes two pure functions on fixed-width signed integers:

  int Cube(int number)   { return number * number * number; }
  int Square(int number) { return number * number; }

We embed the platform's 32-bit two's-complement `int`: a value is an
`Int` in the interval [-2^31, 2^31 - 1], and every machine
multiplication wraps its mathematical result modulo 2^32 back into that
interval, following the wraparound reading of overflow that the
glossary of the specification fixes for the reimplementation.
-/

namespace Algebra

/-- Smallest representable 32-bit signed integer, -2^31. -/
def intMin : Int := -2147483648

/-- Largest representable 32-bit signed integer, 2^31 - 1. -/
def intMax : Int := 2147483647

/-- A value is representable in the 32-bit signed integer type. -/
def inRange (x : Int) : Prop := intMin ≤ x ∧ x ≤ intMax

instance (x : Int) : Decidable (inRange x) :=
  inferInstanceAs (Decidable (intMin ≤ x ∧ x ≤ intMax))

/-- Reduce a mathematical integer modulo 2^32 into [-2^31, 2^31 - 1]:
the value the machine stores after an overflowing operation. -/
def wrap (x : Int) : Int := (x + 2147483648) % 4294967296 - 2147483648

/-- 32-bit signed machine multiplication: the mathematical product,
wrapped. -/
def mulInt (a b : Int) : Int := wrap (a * b)

/-- Reinterpret a nonnegative residue modulo 2^32 as a signed value. -/
def toSigned (x : Int) : Int := if x < 2147483648 then x else x - 4294967296

/-- `int Square(int number) { return number * number; }` -/
def Square (number : Int) : Int := mulInt number number

/-- `int Cube(int number) { return number * number * number; }`
(C++ multiplication associates to the left). -/
def Cube (number : Int) : Int := mulInt (mulInt number number) number

/-! ### Lemmas about `wrap` -/

theorem wrap_eq_of_inRange (x : Int) (h : inRange x) : wrap x = x := by
  unfold inRange intMin intMax at h
  unfold wrap
  omega

theorem wrap_inRange (x : Int) : inRange (wrap x) := by
  unfold inRange intMin intMax wrap
  omega

theorem wrap_add_mul (x m : Int) : wrap (x + 4294967296 * m) = wrap x := by
  unfold wrap
  omega

theorem wrap_mul_left (a b : Int) : wrap (wrap a * b) = wrap (a * b) := by
  have hk : wrap a = a + 4294967296 * (-((a + 2147483648) / 4294967296)) := by
    unfold wrap
    omega
  rw [hk]
  have he : (a + 4294967296 * (-((a + 2147483648) / 4294967296))) * b
      = a * b + 4294967296 * (-((a + 2147483648) / 4294967296) * b) := by ring
  rw [he, wrap_add_mul]

theorem wrap_eq_toSigned (x : Int) : wrap x = toSigned (x % 4294967296) := by
  unfold wrap toSigned
  split <;> omega

/-! ### Range lemmas -/

/-- If a cube is representable then so is the square of its root. -/
theorem sq_inRange_of_cube_inRange (n : Int) (h : inRange (n * n * n)) :
    inRange (n * n) := by
  unfold inRange intMin intMax at *
  obtain ⟨h1, h2⟩ := h
  refine ⟨by nlinarith [mul_self_nonneg n], ?_⟩
  rcases lt_trichotomy n 0 with hn | hn | hn
  · have hb : -1290 ≤ n := by
      by_contra hb
      push_neg at hb
      have q1 : (0 : Int) ≤ (-n - 1291) * (-n) :=
        mul_nonneg (by linarith) (by linarith)
      have q2 : (0 : Int) ≤ (-n - 1291) * (n * n) :=
        mul_nonneg (by linarith) (mul_self_nonneg n)
      nlinarith [q1, q2]
    have q1 : (0 : Int) ≤ (n + 1290) * (-n) :=
      mul_nonneg (by linarith) (by linarith)
    nlinarith [q1]
  · simp [hn]
  · nlinarith [mul_nonneg (mul_self_nonneg n) (by linarith : (0 : Int) ≤ n - 1)]

/-- A representable cube is never the minimum value `-2^31`. -/
theorem cube_ge_neg_intMax (n : Int) (h : inRange (n * n * n)) :
    -2147483647 ≤ n * n * n := by
  unfold inRange intMin intMax at h
  obtain ⟨h1, h2⟩ := h
  rcases le_or_lt 0 n with hn | hn
  · nlinarith [mul_nonneg (mul_nonneg hn hn) hn]
  · have hb : -1290 ≤ n := by
      by_contra hb
      push_neg at hb
      have q1 : (0 : Int) ≤ (-n - 1291) * (-n) :=
        mul_nonneg (by linarith) (by linarith)
      have q2 : (0 : Int) ≤ (-n - 1291) * (n * n) :=
        mul_nonneg (by linarith) (mul_self_nonneg n)
      nlinarith [q1, q2]
    have q1 : (0 : Int) ≤ (n + 1290) * (-n) :=
      mul_nonneg (by linarith) (by linarith)
    have q2 : (0 : Int) ≤ (n + 1290) * (n * n) :=
      mul_nonneg (by linarith) (mul_self_nonneg n)
    nlinarith [q1, q2]

/-! ### Claims -/

/-- Claim C1: for every representable signed integer `n` whose square is
representable without overflow, `Square n` equals the mathematical
product `n * n`. -/
theorem square_eq_mul_of_inRange (n : Int) (hn : inRange n)
    (h : inRange (n * n)) : Square n = n * n := by
  unfold Square mulInt
  exact wrap_eq_of_inRange _ h

theorem square_eq_mul_of_inRange_witness :
    inRange (5 : Int) ∧ inRange ((5 : Int) * 5) ∧ Square 5 = 5 * 5 :=
  ⟨by decide, by decide, square_eq_mul_of_inRange 5 (by decide) (by decide)⟩

/-- Claim C2: for every representable signed integer `n` whose cube is
representable without overflow, `Cube n` equals the mathematical product
`n * n * n` (the intermediate square is then also representable, so no
step of the left-associated computation wraps). -/
theorem cube_eq_mul_of_inRange (n : Int) (hn : inRange n)
    (h3 : inRange (n * n * n)) : Cube n = n * n * n := by
  have h2 := sq_inRange_of_cube_inRange n h3
  unfold Cube mulInt
  rw [wrap_eq_of_inRange _ h2, wrap_eq_of_inRange _ h3]

theorem cube_eq_mul_of_inRange_witness :
    inRange (5 : Int) ∧ inRange ((5 : Int) * 5 * 5) ∧ Cube 5 = 5 * 5 * 5 :=
  ⟨by decide, by decide, cube_eq_mul_of_inRange 5 (by decide) (by decide)⟩

/-- Claim C3: for every `n` whose negation and square are representable,
`Square (-n) = Square n` (even symmetry). -/
theorem square_even (n : Int) (hn : inRange n) (hneg : inRange (-n))
    (h2 : inRange (n * n)) : Square (-n) = Square n := by
  unfold Square mulInt
  have he : -n * -n = n * n := by ring
  rw [he]

theorem square_even_witness :
    inRange (4 : Int) ∧ inRange (-(4 : Int)) ∧ inRange ((4 : Int) * 4) ∧
      Square (-4) = Square 4 :=
  ⟨by decide, by decide, by decide,
    square_even 4 (by decide) (by decide) (by decide)⟩

/-- Claim C4: for every `n` whose negation and cube are representable,
`Cube (-n) = -(Cube n)` (odd symmetry). -/
theorem cube_odd (n : Int) (hn : inRange n) (hneg : inRange (-n))
    (h3 : inRange (n * n * n)) : Cube (-n) = -Cube n := by
  have h2 : inRange (n * n) := sq_inRange_of_cube_inRange n h3
  have hge : -2147483647 ≤ n * n * n := cube_ge_neg_intMax n h3
  have hneg3 : inRange (-(n * n * n)) := by
    unfold inRange intMin intMax at h3 ⊢
    omega
  unfold Cube mulInt
  have e1 : -n * -n = n * n := by ring
  rw [e1, wrap_eq_of_inRange _ h2]
  have e2 : n * n * -n = -(n * n * n) := by ring
  rw [e2, wrap_eq_of_inRange _ hneg3, wrap_eq_of_inRange _ h3]

theorem cube_odd_witness :
    inRange (3 : Int) ∧ inRange (-(3 : Int)) ∧ inRange ((3 : Int) * 3 * 3) ∧
      Cube (-3) = -Cube 3 :=
  ⟨by decide, by decide, by decide,
    cube_odd 3 (by decide) (by decide) (by decide)⟩

/-- Claim C5: when the mathematical square (respectively cube) is not
representable, `Square` (respectively `Cube`) returns the wrapped value:
the mathematical product reduced modulo 2^32 and reinterpreted as a
signed integer. No error is signaled: the functions are total. -/
theorem overflow_wraps (n : Int) :
    (¬ inRange (n * n) → Square n = toSigned ((n * n) % 4294967296)) ∧
    (¬ inRange (n * n * n) → Cube n = toSigned ((n * n * n) % 4294967296)) := by
  constructor
  · intro _
    unfold Square mulInt
    exact wrap_eq_toSigned _
  · intro _
    unfold Cube mulInt
    rw [wrap_mul_left]
    exact wrap_eq_toSigned _

theorem overflow_wraps_witness :
    (¬ inRange ((65536 : Int) * 65536) ∧
        Square 65536 = toSigned (((65536 : Int) * 65536) % 4294967296)) ∧
      (¬ inRange ((65536 : Int) * 65536 * 65536) ∧
        Cube 65536 = toSigned (((65536 : Int) * 65536 * 65536) % 4294967296)) :=
  ⟨⟨by decide, (overflow_wraps 65536).1 (by decide)⟩,
    ⟨by decide, (overflow_wraps 65536).2 (by decide)⟩⟩

/-- Claim C6: `Square` and `Cube` are deterministic: two invocations on
equal inputs return equal results. (They are pure functions of their
argument in this embedding, with no state to observe or mutate.) -/
theorem square_cube_deterministic (n m : Int) (h : n = m) :
    Square n = Square m ∧ Cube n = Cube m := by
  subst h
  exact ⟨rfl, rfl⟩

theorem square_cube_deterministic_witness :
    Square 7 = Square 7 ∧ Cube 7 = Cube 7 :=
  square_cube_deterministic 7 7 rfl

/-- Claim C7: the concrete scenarios of the specification. -/
theorem concrete_scenarios :
    Square 3 = 9 ∧ Square (-4) = 16 ∧ Cube 3 = 27 ∧ Cube (-2) = -8 ∧
      Square 0 = 0 ∧ Cube 0 = 0 := by
  decide

/-- Claim C8: `Square` and `Cube` are total over the declared input
domain: for every representable `n` each returns a representable value
(and, being functions of the embedding, always terminate and raise no
error). -/
theorem square_cube_total (n : Int) (hn : inRange n) :
    inRange (Square n) ∧ inRange (Cube n) :=
  ⟨wrap_inRange _, wrap_inRange _⟩

theorem square_cube_total_witness :
    inRange (3 : Int) ∧ inRange (Square 3) ∧ inRange (Cube 3) :=
  ⟨by decide, (square_cube_total 3 (by decide)).1,
    (square_cube_total 3 (by decide)).2⟩

/-- Claim C9: for every `n`, `Cube n` is `Square n` multiplied once more
by `n` under the same wrapping machine multiplication. -/
theorem cube_eq_square_mulInt (n : Int) : Cube n = mulInt (Square n) n := rfl

/-- Claim C10: when `n * n` is representable — equivalently, when
`-46340 ≤ n ≤ 46340` — `Square n` is nonnegative; outside that range the
wrapped result can be negative, and can be zero even for nonzero `n`. -/
theorem square_nonneg_in_range (n : Int) :
    (inRange (n * n) → 0 ≤ Square n) ∧
    (inRange (n * n) ↔ -46340 ≤ n ∧ n ≤ 46340) ∧
    (∃ m : Int, ¬ inRange (m * m) ∧ Square m < 0) ∧
    (∃ m : Int, m ≠ 0 ∧ ¬ inRange (m * m) ∧ Square m = 0) := by
  refine ⟨?_, ?_, ⟨46341, by decide, by decide⟩,
    ⟨65536, by decide, by decide, by decide⟩⟩
  · intro h
    unfold Square mulInt
    rw [wrap_eq_of_inRange _ h]
    exact mul_self_nonneg n
  · unfold inRange intMin intMax
    constructor
    · rintro ⟨h1, h2⟩
      constructor
      · by_contra hb
        push_neg at hb
        nlinarith [mul_nonneg (by linarith : (0 : Int) ≤ -n - 46341)
          (by linarith : (0 : Int) ≤ -n)]
      · by_contra hb
        push_neg at hb
        nlinarith [mul_nonneg (by linarith : (0 : Int) ≤ n - 46341)
          (by linarith : (0 : Int) ≤ n)]
    · rintro ⟨h1, h2⟩
      refine ⟨by nlinarith [mul_self_nonneg n], ?_⟩
      nlinarith [mul_nonneg (by linarith : (0 : Int) ≤ 46340 - n)
        (by linarith : (0 : Int) ≤ n + 46340)]

theorem square_nonneg_in_range_witness :
    inRange ((3 : Int) * 3) ∧ 0 ≤ Square 3 :=
  ⟨by decide, (square_nonneg_in_range 3).1 (by decide)⟩

end Algebra
